import Mathlib

/-!
Verification of the smooth-union (smooth-minimum) blending formulas of the
fnCAD exploration scripts.  The two scripts define a handful of pure
elementwise numeric functions over distance values; we embed each of them
over the reals, mirroring the source expressions, and prove the stated
properties about them.
-/

namespace SmoothUnionTable

/-- The shifted first distance `d1_shifted = d1 - minDist` computed inside
`smooth_union_exp` of `smooth_union_table.py`. -/
noncomputable def d1_shifted (d1 d2 : ℝ) : ℝ := d1 - min d1 d2

/-- The shifted second distance `d2_shifted = d2 - minDist` computed inside
`smooth_union_exp` of `smooth_union_table.py`. -/
noncomputable def d2_shifted (d1 d2 : ℝ) : ℝ := d2 - min d1 d2

/-- Elementwise semantics of `smooth_union_exp` of `smooth_union_table.py`:
`mask = |d1 - d2| > 2.0/k`; where masked the plain minimum is returned,
elsewhere the shifted blend `-log(exp(-k*d1_shifted) + exp(-k*d2_shifted))/k
+ minDist` (the `np.where(mask, simple, smooth)` selection, per point). -/
noncomputable def smooth_union_exp (d1 d2 k : ℝ) : ℝ :=
  let diff := |d1 - d2|
  let minDist := min d1 d2
  let smooth :=
    -Real.log (Real.exp (-k * d1_shifted d1 d2) + Real.exp (-k * d2_shifted d1 d2)) / k
      + minDist
  let simple := minDist
  if diff > 2.0 / k then simple else smooth

/-- `naive_smooth_union` of `smooth_union_table.py`. -/
noncomputable def naive_smooth_union (d1 d2 k : ℝ) : ℝ :=
  -Real.log (Real.exp (-k * d1) + Real.exp (-k * d2)) / k

end SmoothUnionTable

namespace SmoothUnionCompare

/-- Scalar (single-point) semantics of `smooth_union_exp` of
`smooth_union_compare.py`: on a one-element input, `np.all(minDist > 1.0/k *
2.0)` reduces to the single comparison, so the plain minimum is returned when
`min d1 d2 > 1.0/k * 2.0` and the unguarded exponential blend otherwise. -/
noncomputable def smooth_union_exp (d1 d2 k : ℝ) : ℝ :=
  let minDist := min d1 d2
  if minDist > 1.0 / k * 2.0 then min d1 d2
  else -Real.log (Real.exp (-k * d1) + Real.exp (-k * d2)) / k

/-- Array semantics of `smooth_union_exp` of `smooth_union_compare.py`: the
input arrays are modelled as a list of pairs; `np.all(minDist > 1.0/k * 2.0)`
is a whole-array test, and whichever branch is taken applies to every
element. -/
noncomputable def smooth_union_exp_array (ds : List (ℝ × ℝ)) (k : ℝ) : List ℝ :=
  if ∀ p ∈ ds, min p.1 p.2 > 1.0 / k * 2.0 then
    ds.map fun p => min p.1 p.2
  else
    ds.map fun p => -Real.log (Real.exp (-k * p.1) + Real.exp (-k * p.2)) / k

/-- `smooth_union_poly` of `smooth_union_compare.py`. -/
noncomputable def smooth_union_poly (d1 d2 k : ℝ) : ℝ :=
  let h := max (k - |d1 - d2|) 0.0 / k
  min d1 d2 - h * h * h * k / 6.0

/-- `smooth_union_quad` of `smooth_union_compare.py`. -/
noncomputable def smooth_union_quad (d1 d2 k : ℝ) : ℝ :=
  let h := max 0.0 (k - |d1 - d2|) / k
  min d1 d2 - h * h * k / 4.0

/-- `smooth_union_power` of `smooth_union_compare.py`; `np.power` with a
positive base is real exponentiation `Real.rpow`. -/
noncomputable def smooth_union_power (d1 d2 k : ℝ) : ℝ :=
  let eps : ℝ := 1e-6
  let a := (|d1| + eps) ^ k
  let b := (|d2| + eps) ^ k
  ((a * b) / (a + b)) ^ (1.0 / k)

/-- `smooth_union_scaled_exp` of `smooth_union_compare.py`. -/
noncomputable def smooth_union_scaled_exp (d1 d2 k : ℝ) : ℝ :=
  let scale : ℝ := 10.0
  (-Real.log (Real.exp (-k * (scale * d1)) + Real.exp (-k * (scale * d2)))) / (k * scale)

end SmoothUnionCompare

/-- C3: in the guarded exponential smooth union of the table script, for
every `d1`, `d2` and every `k > 0`, both exponent arguments after the shift
by the minimum are non-positive: `-k * d1_shifted ≤ 0` and
`-k * d2_shifted ≤ 0`. -/
theorem shifted_exponent_args_nonpos (d1 d2 k : ℝ) (hk : 0 < k) :
    -k * SmoothUnionTable.d1_shifted d1 d2 ≤ 0 ∧
      -k * SmoothUnionTable.d2_shifted d1 d2 ≤ 0 := by
  constructor
  · have h1 : 0 ≤ SmoothUnionTable.d1_shifted d1 d2 := by
      simp only [SmoothUnionTable.d1_shifted, sub_nonneg]
      exact min_le_left d1 d2
    nlinarith
  · have h2 : 0 ≤ SmoothUnionTable.d2_shifted d1 d2 := by
      simp only [SmoothUnionTable.d2_shifted, sub_nonneg]
      exact min_le_right d1 d2
    nlinarith

/-- Witness for `shifted_exponent_args_nonpos` at `d1 = 1`, `d2 = 2`,
`k = 1`. -/
theorem shifted_exponent_args_nonpos_witness :
    (0:ℝ) < 1 ∧
      (-(1:ℝ) * SmoothUnionTable.d1_shifted 1 2 ≤ 0 ∧
        -(1:ℝ) * SmoothUnionTable.d2_shifted 1 2 ≤ 0) :=
  ⟨by norm_num, shifted_exponent_args_nonpos 1 2 1 (by norm_num)⟩

/-- C5: `smooth_union_scaled_exp` is the exponential variant with both
distances pre-scaled by 10 before exponentiation and the result unscaled
afterwards: `-log(exp(-k*10*d1) + exp(-k*10*d2)) / (k*10)`. -/
theorem scaled_exp_formula (d1 d2 k : ℝ) :
    SmoothUnionCompare.smooth_union_scaled_exp d1 d2 k =
      -Real.log (Real.exp (-(k * 10) * d1) + Real.exp (-(k * 10) * d2)) / (k * 10) := by
  simp only [SmoothUnionCompare.smooth_union_scaled_exp]
  norm_num
  ring_nf

/-- C6: `smooth_union_poly` returns `min(d1,d2) - h^3 * k / 6` where
`h = max(k - |d1 - d2|, 0) / k`. -/
theorem poly_formula (d1 d2 k : ℝ) :
    SmoothUnionCompare.smooth_union_poly d1 d2 k =
      min d1 d2 - (max (k - |d1 - d2|) 0 / k) ^ 3 * k / 6 := by
  simp only [SmoothUnionCompare.smooth_union_poly]
  norm_num
  ring

/-- C7: `smooth_union_quad` returns `min(d1,d2) - h^2 * k / 4` where
`h = max(k - |d1 - d2|, 0) / k`. -/
theorem quad_formula (d1 d2 k : ℝ) :
    SmoothUnionCompare.smooth_union_quad d1 d2 k =
      min d1 d2 - (max (k - |d1 - d2|) 0 / k) ^ 2 * k / 4 := by
  simp only [SmoothUnionCompare.smooth_union_quad]
  rw [max_comm]
  norm_num
  ring

/-- C8: `smooth_union_power` returns
`((|d1|+eps)^k * (|d2|+eps)^k / ((|d1|+eps)^k + (|d2|+eps)^k))^(1/k)` with
`eps = 1e-6`, and the denominator of the inner quotient is strictly
positive, so the division-by-zero branch is unreachable. -/
theorem power_formula_and_denominator_pos (d1 d2 k : ℝ) :
    SmoothUnionCompare.smooth_union_power d1 d2 k =
        ((|d1| + 1e-6) ^ k * (|d2| + 1e-6) ^ k /
          ((|d1| + 1e-6) ^ k + (|d2| + 1e-6) ^ k)) ^ ((1:ℝ) / k) ∧
      0 < (|d1| + 1e-6) ^ k + (|d2| + 1e-6) ^ k := by
  constructor
  · simp only [SmoothUnionCompare.smooth_union_power]
    norm_num
  · have ha : (0:ℝ) < (|d1| + 1e-6) ^ k :=
      Real.rpow_pos_of_pos (by positivity) k
    have hb : (0:ℝ) < (|d2| + 1e-6) ^ k :=
      Real.rpow_pos_of_pos (by positivity) k
    linarith

/-- Shifting both distances by their minimum before exponentiating, blending,
and adding the minimum back is mathematically identical to the unguarded
exponential blend, for every `k > 0`. -/
theorem exp_shift_identity (d1 d2 k : ℝ) (hk : 0 < k) :
    -Real.log (Real.exp (-k * (d1 - min d1 d2)) + Real.exp (-k * (d2 - min d1 d2))) / k
        + min d1 d2
      = -Real.log (Real.exp (-k * d1) + Real.exp (-k * d2)) / k := by
  have hk' : k ≠ 0 := hk.ne'
  have hfac : ∀ d : ℝ, Real.exp (-k * (d - min d1 d2))
      = Real.exp (-k * d) * Real.exp (k * min d1 d2) := by
    intro d
    rw [← Real.exp_add]
    congr 1
    ring
  rw [hfac d1, hfac d2, ← add_mul,
    Real.log_mul (by positivity) (Real.exp_ne_zero _), Real.log_exp]
  field_simp
  ring

/-- C1: the guarded exponential variant of the table script returns the plain
minimum at every point with `|d1 - d2| > 2/k`, and at every point with
`|d1 - d2| ≤ 2/k` returns the blend obtained by subtracting
`minDist = min d1 d2` from both distances, evaluating
`-log(exp(-k*(d1-minDist)) + exp(-k*(d2-minDist)))/k`, and adding `minDist`
back. -/
theorem table_exp_guard_policy (d1 d2 k : ℝ) (hk : 0 < k) :
    (|d1 - d2| > 2 / k → SmoothUnionTable.smooth_union_exp d1 d2 k = min d1 d2) ∧
    (|d1 - d2| ≤ 2 / k → SmoothUnionTable.smooth_union_exp d1 d2 k =
      -Real.log (Real.exp (-k * (d1 - min d1 d2)) + Real.exp (-k * (d2 - min d1 d2))) / k
        + min d1 d2) := by
  have h20 : (2.0 : ℝ) = 2 := by norm_num
  constructor
  · intro h
    simp only [SmoothUnionTable.smooth_union_exp, h20]
    rw [if_pos h]
  · intro h
    simp only [SmoothUnionTable.smooth_union_exp, SmoothUnionTable.d1_shifted,
      SmoothUnionTable.d2_shifted, h20]
    rw [if_neg (not_lt.mpr h)]

/-- Witness for `table_exp_guard_policy` at `d1 = 0`, `d2 = 3`, `k = 1`. -/
theorem table_exp_guard_policy_witness :
    (0:ℝ) < 1 ∧
      ((|(0:ℝ) - 3| > 2 / 1 → SmoothUnionTable.smooth_union_exp 0 3 1 = min (0:ℝ) 3) ∧
       (|(0:ℝ) - 3| ≤ 2 / 1 → SmoothUnionTable.smooth_union_exp 0 3 1 =
         -Real.log (Real.exp (-(1:ℝ) * (0 - min (0:ℝ) 3))
             + Real.exp (-(1:ℝ) * (3 - min (0:ℝ) 3))) / 1
           + min (0:ℝ) 3)) :=
  ⟨by norm_num, table_exp_guard_policy 0 3 1 (by norm_num)⟩

/-- C2: on the blend branch (`|d1 - d2| ≤ 2/k`, `k > 0`), the guarded
exponential smooth union of the table script agrees exactly with the
unguarded `naive_smooth_union`: the shift by the minimum is mathematically
transparent. -/
theorem table_exp_blend_matches_naive (d1 d2 k : ℝ) (hk : 0 < k)
    (hd : |d1 - d2| ≤ 2 / k) :
    SmoothUnionTable.smooth_union_exp d1 d2 k =
      SmoothUnionTable.naive_smooth_union d1 d2 k := by
  have h20 : (2.0 : ℝ) = 2 := by norm_num
  simp only [SmoothUnionTable.smooth_union_exp, SmoothUnionTable.naive_smooth_union,
    SmoothUnionTable.d1_shifted, SmoothUnionTable.d2_shifted, h20]
  rw [if_neg (not_lt.mpr hd)]
  exact exp_shift_identity d1 d2 k hk

/-- Witness for `table_exp_blend_matches_naive` at `d1 = 0`, `d2 = 0`,
`k = 1`. -/
theorem table_exp_blend_matches_naive_witness :
    (0:ℝ) < 1 ∧ |(0:ℝ) - 0| ≤ 2 / 1 ∧
      SmoothUnionTable.smooth_union_exp 0 0 1 =
        SmoothUnionTable.naive_smooth_union 0 0 1 :=
  ⟨by norm_num, by norm_num,
    table_exp_blend_matches_naive 0 0 1 (by norm_num) (by norm_num)⟩

/-- C4 counterexample: at `d1 = d2 = 3`, `k = 1`, the comparison script's
`smooth_union_exp` takes the far-field branch (`min 3 3 = 3 > 2/1`) and
returns the plain minimum `3`, which differs from the exponential formula
`-log(exp(-3) + exp(-3))/1 = 3 - log 2`. -/
theorem compare_exp_formula_counterexample :
    SmoothUnionCompare.smooth_union_exp 3 3 1 ≠
      -Real.log (Real.exp (-(1:ℝ) * 3) + Real.exp (-(1:ℝ) * 3)) / 1 := by
  have h1 : SmoothUnionCompare.smooth_union_exp 3 3 1 = 3 := by
    simp only [SmoothUnionCompare.smooth_union_exp]
    norm_num
  have h2 : -Real.log (Real.exp (-(1:ℝ) * 3) + Real.exp (-(1:ℝ) * 3)) / 1
      = 3 - Real.log 2 := by
    rw [← two_mul, Real.log_mul two_ne_zero (Real.exp_ne_zero _), Real.log_exp]
    ring
  have h3 : 0 < Real.log 2 := Real.log_pos (by norm_num)
  rw [h1, h2]
  intro h
  linarith

/-- C4 amended: for every `d1`, `d2` and `k > 0`, the comparison script's
`smooth_union_exp` returns `-log(exp(-k*d1) + exp(-k*d2))/k` whenever
`min(d1,d2) ≤ 2/k`; when `min(d1,d2) > 2/k` it returns the plain minimum
instead. -/
theorem compare_exp_formula_amended (d1 d2 k : ℝ) (hk : 0 < k) :
    (min d1 d2 ≤ 2 / k →
      SmoothUnionCompare.smooth_union_exp d1 d2 k =
        -Real.log (Real.exp (-k * d1) + Real.exp (-k * d2)) / k) ∧
    (min d1 d2 > 2 / k → SmoothUnionCompare.smooth_union_exp d1 d2 k = min d1 d2) := by
  have hcond : (1.0 : ℝ) / k * 2.0 = 2 / k := by
    norm_num
    ring
  constructor
  · intro h
    simp only [SmoothUnionCompare.smooth_union_exp]
    rw [hcond, if_neg (not_lt.mpr h)]
  · intro h
    simp only [SmoothUnionCompare.smooth_union_exp]
    rw [hcond, if_pos h]

/-- Witness for `compare_exp_formula_amended` at `d1 = 0`, `d2 = 0`,
`k = 1`. -/
theorem compare_exp_formula_amended_witness :
    (0:ℝ) < 1 ∧
      ((min (0:ℝ) 0 ≤ 2 / 1 →
        SmoothUnionCompare.smooth_union_exp 0 0 1 =
          -Real.log (Real.exp (-(1:ℝ) * 0) + Real.exp (-(1:ℝ) * 0)) / 1) ∧
       (min (0:ℝ) 0 > 2 / 1 →
        SmoothUnionCompare.smooth_union_exp 0 0 1 = min (0:ℝ) 0)) :=
  ⟨by norm_num, compare_exp_formula_amended 0 0 1 (by norm_num)⟩

/-- C9: the fallback of the comparison script's `smooth_union_exp` is a
whole-array decision: if any element fails `min(d1,d2) > 2/k`, the unguarded
exponential formula is evaluated for every element, including far-away ones;
the plain minimum is returned only when every element passes the test. -/
theorem compare_exp_array_whole_fallback (ds : List (ℝ × ℝ)) (k : ℝ) :
    ((∃ p ∈ ds, ¬ (min p.1 p.2 > 1.0 / k * 2.0)) →
      SmoothUnionCompare.smooth_union_exp_array ds k =
        ds.map fun p => -Real.log (Real.exp (-k * p.1) + Real.exp (-k * p.2)) / k) ∧
    ((∀ p ∈ ds, min p.1 p.2 > 1.0 / k * 2.0) →
      SmoothUnionCompare.smooth_union_exp_array ds k = ds.map fun p => min p.1 p.2) := by
  constructor
  · rintro ⟨p, hp, hlt⟩
    simp only [SmoothUnionCompare.smooth_union_exp_array]
    rw [if_neg]
    intro hall
    exact hlt (hall p hp)
  · intro hall
    simp only [SmoothUnionCompare.smooth_union_exp_array]
    rw [if_pos hall]

/-- Witness for `compare_exp_array_whole_fallback` on the two-element array
`[(3,3), (0,0)]` with `k = 1`: the pair `(3,3)` is far (`min = 3 > 2`), yet
because `(0,0)` fails the test, the blend formula is applied to every
element. -/
theorem compare_exp_array_whole_fallback_witness :
    (∃ p ∈ [((3:ℝ), (3:ℝ)), (0, 0)], ¬ (min p.1 p.2 > 1.0 / 1 * 2.0)) ∧
      SmoothUnionCompare.smooth_union_exp_array [((3:ℝ), (3:ℝ)), (0, 0)] 1 =
        [((3:ℝ), (3:ℝ)), (0, 0)].map
          fun p => -Real.log (Real.exp (-1 * p.1) + Real.exp (-1 * p.2)) / 1 :=
  ⟨⟨(0, 0), by norm_num, by norm_num⟩,
    (compare_exp_array_whole_fallback [((3:ℝ), (3:ℝ)), (0, 0)] 1).1
      ⟨(0, 0), by norm_num, by norm_num⟩⟩

/-- C10: every smooth-union function in the repository is commutative in its
two distance arguments. -/
theorem all_variants_commutative (d1 d2 k : ℝ) :
    SmoothUnionTable.smooth_union_exp d1 d2 k = SmoothUnionTable.smooth_union_exp d2 d1 k ∧
    SmoothUnionTable.naive_smooth_union d1 d2 k = SmoothUnionTable.naive_smooth_union d2 d1 k ∧
    SmoothUnionCompare.smooth_union_exp d1 d2 k = SmoothUnionCompare.smooth_union_exp d2 d1 k ∧
    SmoothUnionCompare.smooth_union_poly d1 d2 k = SmoothUnionCompare.smooth_union_poly d2 d1 k ∧
    SmoothUnionCompare.smooth_union_quad d1 d2 k = SmoothUnionCompare.smooth_union_quad d2 d1 k ∧
    SmoothUnionCompare.smooth_union_power d1 d2 k = SmoothUnionCompare.smooth_union_power d2 d1 k ∧
    SmoothUnionCompare.smooth_union_scaled_exp d1 d2 k
      = SmoothUnionCompare.smooth_union_scaled_exp d2 d1 k := by
  refine ⟨?_, ?_, ?_, ?_, ?_, ?_, ?_⟩
  · simp only [SmoothUnionTable.smooth_union_exp, SmoothUnionTable.d1_shifted,
      SmoothUnionTable.d2_shifted]
    rw [abs_sub_comm, min_comm d1 d2,
      add_comm (Real.exp (-k * (d1 - min d2 d1)))]
  · simp only [SmoothUnionTable.naive_smooth_union]
    rw [add_comm (Real.exp (-k * d1))]
  · simp only [SmoothUnionCompare.smooth_union_exp]
    rw [min_comm d1 d2, add_comm (Real.exp (-k * d1))]
  · simp only [SmoothUnionCompare.smooth_union_poly]
    rw [abs_sub_comm, min_comm d1 d2]
  · simp only [SmoothUnionCompare.smooth_union_quad]
    rw [abs_sub_comm, min_comm d1 d2]
  · simp only [SmoothUnionCompare.smooth_union_power]
    rw [mul_comm ((|d1| + 1e-6) ^ k), add_comm ((|d1| + 1e-6) ^ k)]
  · simp only [SmoothUnionCompare.smooth_union_scaled_exp]
    rw [add_comm (Real.exp (-k * (10.0 * d1)))]
